import Mathlib

/-!
Shallow embedding of the bounded string-scanning primitives of
safestringlib: `strstr_s`, `strcasestr_s`, `strcspn_s` and
`strisuppercase_s` (src/safeclib).

Memory is modelled as a total map from addresses to byte values
(`Mem := Nat → Nat`); the null pointer is address 0, and a C string
read `p[i]` becomes `mem (p + i)`.  Each function returns a record
holding the returned status code, the final value of its output
parameter, and the list of constraint-handler invocations
(message, error code) it performed.
-/

abbrev Mem := Nat → Nat

/-- Modelled from the spec: the global safety ceiling on declared string
lengths (`RSIZE_MAX_STR` from `safe_str_lib.h`, which is not part of the
four scanned source files; the library defines it as `4UL << 10`). -/
def RSIZE_MAX_STR : Nat := 4096

/-- Modelled from the spec: success status (`EOK`). -/
def EOK : Nat := 0

/-- Modelled from the spec: null-pointer violation status (`ESNULLP`). -/
def ESNULLP : Nat := 400

/-- Modelled from the spec: zero-length violation status (`ESZEROL`). -/
def ESZEROL : Nat := 401

/-- Modelled from the spec: length-exceeds-max violation status
(`ESLEMAX`). -/
def ESLEMAX : Nat := 403

/-- Modelled from the spec: substring-not-found status (`ESNOTFND`). -/
def ESNOTFND : Nat := 409

/-- C `toupper` on single-byte character codes: lowercase ASCII letters
are shifted to uppercase, every other code is unchanged. -/
def toupper (c : Nat) : Nat := if 97 ≤ c ∧ c ≤ 122 then c - 32 else c

/-- A constraint-handler invocation: diagnostic message and error code. -/
abbrev Report := String × Nat

/-- Result record of the two substring searches: status code, final value
written through `substring` (`none` models the NULL pointer value), and
the constraint-handler invocations. -/
structure SearchResult where
  ret : Nat
  substring : Option Nat
  reports : List Report
deriving DecidableEq

/-- Result record of `strcspn_s`: status code, final value written
through `count`, and the constraint-handler invocations. -/
structure CspnResult where
  ret : Nat
  count : Nat
  reports : List Report
deriving DecidableEq

/-- Inner comparison loop of `strstr_s` at one candidate haystack
position `d`: C's `while (src[i] && dlen)` body.  Arguments `i`, `len`,
`dlen` are the loop variables; the result is `true` exactly when the
loop returns `EOK` (a match was declared). -/
def strstrInner (mem : Mem) (d s : Nat) : Nat → Nat → Nat → Bool
  | _, _, 0 => false
  | i, len, dlen + 1 =>
    if mem (s + i) = 0 then false
    else if mem (d + i) ≠ mem (s + i) then false
    else if mem (s + (i + 1)) = 0 ∨ len - 1 = 0 then true
    else strstrInner mem d s (i + 1) (len - 1) dlen

/-- Outer candidate loop of `strstr_s`: C's `while (*dest && dmax)`.
Returns the address of the matching candidate, or `none` when the
haystack is exhausted.  (C tests `*dest` before `dmax`; with `dmax = 0`
both give no further iteration, so recursion is on `dmax`.) -/
def strstrOuter (mem : Mem) (s slen : Nat) : Nat → Nat → Option Nat
  | _, 0 => none
  | d, dmax + 1 =>
    if mem d = 0 then none
    else if strstrInner mem d s 0 slen (dmax + 1) then some d
    else strstrOuter mem s slen (d + 1) dmax

/-- `strstr_s` from `src/safeclib/strstr_s.c`.  `substringNull = true`
models a NULL `substring` output pointer; otherwise the `substring`
field of the result is the final value of `*substring`. -/
def strstr_s (mem : Mem) (dest dmax src slen : Nat)
    (substringNull : Bool) : SearchResult :=
  if substringNull then
    ⟨ESNULLP, none, [("strstr_s: substring is null", ESNULLP)]⟩
  else if dest = 0 then
    ⟨ESNULLP, none, [("strstr_s: dest is null", ESNULLP)]⟩
  else if dmax = 0 then
    ⟨ESZEROL, none, [("strstr_s: dmax is 0", ESZEROL)]⟩
  else if dmax > RSIZE_MAX_STR then
    ⟨ESLEMAX, none, [("strstr_s: dmax exceeds max", ESLEMAX)]⟩
  else if src = 0 then
    ⟨ESNULLP, none, [("strstr_s: src is null", ESNULLP)]⟩
  else if slen = 0 then
    ⟨ESZEROL, none, [("strstr_s: slen is 0", ESZEROL)]⟩
  else if slen > RSIZE_MAX_STR then
    ⟨ESLEMAX, none, [("strstr_s: slen exceeds max", ESLEMAX)]⟩
  else if mem src = 0 ∨ dest = src then
    ⟨EOK, some dest, []⟩
  else
    match strstrOuter mem src slen dest dmax with
    | some r => ⟨EOK, some r, []⟩
    | none => ⟨ESNOTFND, none, []⟩

/-- Inner comparison loop of `strcasestr_s` at one candidate position:
C's `while (dest[i] && dlen)` body, comparing by `toupper`. -/
def strcasestrInner (mem : Mem) (d s : Nat) : Nat → Nat → Nat → Bool
  | _, _, 0 => false
  | i, len, dlen + 1 =>
    if mem (d + i) = 0 then false
    else if toupper (mem (d + i)) ≠ toupper (mem (s + i)) then false
    else if mem (s + (i + 1)) = 0 ∨ len - 1 = 0 then true
    else strcasestrInner mem d s (i + 1) (len - 1) dlen

/-- Outer candidate loop of `strcasestr_s`. -/
def strcasestrOuter (mem : Mem) (s slen : Nat) : Nat → Nat → Option Nat
  | _, 0 => none
  | d, dmax + 1 =>
    if mem d = 0 then none
    else if strcasestrInner mem d s 0 slen (dmax + 1) then some d
    else strcasestrOuter mem s slen (d + 1) dmax

/-- `strcasestr_s` from `src/safeclib/strcasestr_s.c`. -/
def strcasestr_s (mem : Mem) (dest dmax src slen : Nat)
    (substringNull : Bool) : SearchResult :=
  if substringNull then
    ⟨ESNULLP, none, [("strcasestr_s: substring is null", ESNULLP)]⟩
  else if dest = 0 then
    ⟨ESNULLP, none, [("strcasestr_s: dest is null", ESNULLP)]⟩
  else if dmax = 0 then
    ⟨ESZEROL, none, [("strcasestr_s: dmax is 0", ESZEROL)]⟩
  else if dmax > RSIZE_MAX_STR then
    ⟨ESLEMAX, none, [("strcasestr_s: dmax exceeds max", ESLEMAX)]⟩
  else if src = 0 then
    ⟨ESNULLP, none, [("strcasestr_s: src is null", ESNULLP)]⟩
  else if slen = 0 then
    ⟨ESZEROL, none, [("strcasestr_s: slen is 0", ESZEROL)]⟩
  else if slen > RSIZE_MAX_STR then
    ⟨ESLEMAX, none, [("strcasestr_s: slen exceeds max", ESLEMAX)]⟩
  else if mem src = 0 ∨ dest = src then
    ⟨EOK, some dest, []⟩
  else
    match strcasestrOuter mem src slen dest dmax with
    | some r => ⟨EOK, some r, []⟩
    | none => ⟨ESNOTFND, none, []⟩

/-- Inner exclusion-set scan of `strcspn_s`: C's
`while (*scan2 && smax)`, returning `true` when character `c` is found
in the bounded exclusion string. -/
def strcspnInner (mem : Mem) (c : Nat) : Nat → Nat → Bool
  | _, 0 => false
  | scan2, smax + 1 =>
    if mem scan2 = 0 then false
    else if c = mem scan2 then true
    else strcspnInner mem c (scan2 + 1) smax

/-- Outer subject scan of `strcspn_s`: C's `while (*dest && dmax)` with
the running `*count` accumulator; returns the final value of `*count`
(the status is `EOK` on every exit of the loop). -/
def strcspnOuter (mem : Mem) (s slen : Nat) : Nat → Nat → Nat → Nat
  | _, 0, count => count
  | d, dmax + 1, count =>
    if mem d = 0 then count
    else if strcspnInner mem (mem d) s slen then count
    else strcspnOuter mem s slen (d + 1) dmax (count + 1)

/-- `strcspn_s` from `src/safeclib/strcspn_s.c`.  Note the validation
order of the source: `count`, `dest`, `src` null checks come first, then
the four length checks. -/
def strcspn_s (mem : Mem) (dest dmax src slen : Nat)
    (countNull : Bool) : CspnResult :=
  if countNull then
    ⟨ESNULLP, 0, [("strcspn_s: count is null", ESNULLP)]⟩
  else if dest = 0 then
    ⟨ESNULLP, 0, [("strcspn_s: dest is null", ESNULLP)]⟩
  else if src = 0 then
    ⟨ESNULLP, 0, [("strcspn_s: src is null", ESNULLP)]⟩
  else if dmax = 0 then
    ⟨ESZEROL, 0, [("strcspn_s: dmax is 0", ESZEROL)]⟩
  else if dmax > RSIZE_MAX_STR then
    ⟨ESLEMAX, 0, [("strcspn_s: dmax exceeds max", ESLEMAX)]⟩
  else if slen = 0 then
    ⟨ESZEROL, 0, [("strcspn_s: slen is 0", ESZEROL)]⟩
  else if slen > RSIZE_MAX_STR then
    ⟨ESLEMAX, 0, [("strcspn_s: slen exceeds max", ESLEMAX)]⟩
  else
    ⟨EOK, strcspnOuter mem src slen dest dmax 0, []⟩

/-- Scanning loop of `strisuppercase_s`: C's `while (*dest)`.  The C
loop is bounded only by the terminating null (it decrements `dmax` but
never tests it), so the embedding carries an explicit `fuel`; `none`
means the fuel ran out before the loop returned. -/
def strisupLoop (mem : Mem) : Nat → Nat → Option Bool
  | _, 0 => none
  | d, fuel + 1 =>
    if mem d = 0 then some true
    else if mem d < 65 ∨ mem d > 90 then some false
    else strisupLoop mem (d + 1) fuel

/-- `strisuppercase_s` from `src/safeclib/strisuppercase_s.c`, with the
explicit `fuel` bound for its unbounded scanning loop. -/
def strisuppercase_s (mem : Mem) (dest dmax fuel : Nat) :
    Option Bool × List Report :=
  if dest = 0 then
    (some false, [("strisuppercase_s: dest is null", ESNULLP)])
  else if dmax = 0 then
    (some false, [("strisuppercase_s: dmax is 0", ESZEROL)])
  else if dmax > RSIZE_MAX_STR then
    (some false, [("strisuppercase_s: dmax exceeds max", ESLEMAX)])
  else if mem dest = 0 then
    (some false, [])
  else
    (strisupLoop mem dest fuel, [])

/-- Length of the bounded string starting at address `p` with budget
`n`: the number of leading non-null characters, capped at `n`. -/
def boundedLen (mem : Mem) : Nat → Nat → Nat
  | _, 0 => 0
  | p, n + 1 => if mem p = 0 then 0 else boundedLen mem (p + 1) n + 1

/-- The characters of the bounded exclusion string starting at `s` with
budget `smax` (the characters before the first null, capped at `smax`). -/
def exclChars (mem : Mem) : Nat → Nat → List Nat
  | _, 0 => []
  | s, smax + 1 =>
    if mem s = 0 then [] else mem s :: exclChars mem (s + 1) smax

/-- The bounded needle of length `n` rooted at `src` occurs in the
haystack at offset `p`: every haystack position before `p` is non-null
(the candidate is reachable) and the `n` needle characters match the
haystack characters starting at offset `p`. -/
def occursAt (mem : Mem) (dest src n p : Nat) : Prop :=
  (∀ q < p, mem (dest + q) ≠ 0) ∧ ∀ j < n, mem (dest + (p + j)) = mem (src + j)

instance (mem : Mem) (dest src n p : Nat) :
    Decidable (occursAt mem dest src n p) := by
  unfold occursAt; infer_instance

/-- A concrete test memory laying out the byte string `l` at base
address `b`; every other address holds the terminator 0. -/
def layout (b : Nat) (l : List Nat) : Mem :=
  fun a => if b ≤ a ∧ a < b + l.length then l.getD (a - b) 0 else 0

/-- Two byte strings at two base addresses. -/
def layout2 (b₁ : Nat) (l₁ : List Nat) (b₂ : Nat) (l₂ : List Nat) : Mem :=
  fun a => if b₁ ≤ a ∧ a < b₁ + l₁.length then l₁.getD (a - b₁) 0
    else if b₂ ≤ a ∧ a < b₂ + l₂.length then l₂.getD (a - b₂) 0 else 0

lemma boundedLen_eq_zero (mem : Mem) (p n : Nat) (h : mem p = 0 ∨ n = 0) :
    boundedLen mem p n = 0 := by
  cases n with
  | zero => rfl
  | succ k =>
    rcases h with h | h
    · simp [boundedLen, h]
    · omega

lemma boundedLen_pos (mem : Mem) (p n : Nat) (hn : 1 ≤ n) (hp : mem p ≠ 0) :
    1 ≤ boundedLen mem p n := by
  obtain ⟨k, rfl⟩ : ∃ k, n = k + 1 := ⟨n - 1, by omega⟩
  simp [boundedLen, hp]

lemma mem_ne_zero_of_boundedLen_pos (mem : Mem) (p n : Nat)
    (h : 1 ≤ boundedLen mem p n) : mem p ≠ 0 := by
  intro hp
  rw [boundedLen_eq_zero mem p n (Or.inl hp)] at h
  omega

lemma boundedLen_le (mem : Mem) : ∀ n p, boundedLen mem p n ≤ n := by
  intro n
  induction n with
  | zero => intro p; simp [boundedLen]
  | succ k ih =>
    intro p
    by_cases h : mem p = 0
    · simp [boundedLen, h]
    · simp only [boundedLen, if_neg h]
      have := ih (p + 1)
      omega

lemma strstrInner_iff (mem : Mem) (d s : Nat) :
    ∀ dlen i len, 1 ≤ len →
      (strstrInner mem d s i len dlen = true ↔
        1 ≤ boundedLen mem (s + i) len ∧ boundedLen mem (s + i) len ≤ dlen ∧
        ∀ j < boundedLen mem (s + i) len, mem (d + (i + j)) = mem (s + (i + j))) := by
  intro dlen
  induction dlen with
  | zero =>
    intro i len _
    simp only [strstrInner]
    constructor
    · intro h; simp at h
    · rintro ⟨h1, h2, -⟩; exfalso; omega
  | succ dl ih =>
    intro i len hlen
    obtain ⟨l, rfl⟩ : ∃ l, len = l + 1 := ⟨len - 1, by omega⟩
    simp only [strstrInner]
    by_cases h0 : mem (s + i) = 0
    · rw [if_pos h0]
      constructor
      · intro h; simp at h
      · rintro ⟨h1, -, -⟩
        rw [boundedLen_eq_zero mem (s + i) (l + 1) (Or.inl h0)] at h1
        exfalso; omega
    · rw [if_neg h0]
      have hblen : boundedLen mem (s + i) (l + 1)
          = boundedLen mem (s + (i + 1)) l + 1 := by
        have ha : s + i + 1 = s + (i + 1) := by omega
        simp only [boundedLen, if_neg h0, ha]
      by_cases hne : mem (d + i) ≠ mem (s + i)
      · rw [if_pos hne]
        constructor
        · intro h; simp at h
        · rintro ⟨h1, -, hall⟩
          exfalso
          have := hall 0 (by omega)
          simp only [Nat.add_zero] at this
          exact hne this
      · have hne' : mem (d + i) = mem (s + i) := by
          push_neg at hne; exact hne
        rw [if_neg hne]
        by_cases hsucc : mem (s + (i + 1)) = 0 ∨ l + 1 - 1 = 0
        · rw [if_pos hsucc]
          have hm0 : boundedLen mem (s + (i + 1)) l = 0 := by
            apply boundedLen_eq_zero
            rcases hsucc with h | h
            · exact Or.inl h
            · exact Or.inr (by omega)
          rw [hblen, hm0]
          constructor
          · intro _
            refine ⟨by omega, by omega, ?_⟩
            intro j hj
            have hj0 : j = 0 := by omega
            subst hj0
            simpa using hne'
          · intro _; rfl
        · rw [if_neg hsucc]
          push_neg at hsucc
          obtain ⟨hs1, hl0⟩ := hsucc
          have hl1 : 1 ≤ l := by omega
          have hll : l + 1 - 1 = l := by omega
          rw [hll, ih (i + 1) l hl1, hblen]
          have hm1 : 1 ≤ boundedLen mem (s + (i + 1)) l :=
            boundedLen_pos mem _ l hl1 hs1
          constructor
          · rintro ⟨-, h2, hall⟩
            refine ⟨by omega, by omega, ?_⟩
            intro j hj
            cases j with
            | zero => simpa using hne'
            | succ j' =>
              have := hall j' (by omega)
              have e1 : i + 1 + j' = i + (j' + 1) := by omega
              rwa [e1] at this
          · rintro ⟨-, h2, hall⟩
            refine ⟨hm1, by omega, ?_⟩
            intro j hj
            have := hall (j + 1) (by omega)
            have e1 : i + (j + 1) = i + 1 + j := by omega
            rwa [e1] at this

lemma strstrInner_spec (mem : Mem) (d s slen dlen : Nat) (h : 1 ≤ slen) :
    strstrInner mem d s 0 slen dlen = true ↔
      1 ≤ boundedLen mem s slen ∧ boundedLen mem s slen ≤ dlen ∧
      ∀ j < boundedLen mem s slen, mem (d + j) = mem (s + j) := by
  have := strstrInner_iff mem d s dlen 0 slen h
  simpa using this

lemma strstrOuter_found (mem : Mem) (s slen : Nat) :
    ∀ p dmax d, p < dmax →
      (∀ q < p, mem (d + q) ≠ 0) →
      (∀ q < p, strstrInner mem (d + q) s 0 slen (dmax - q) = false) →
      mem (d + p) ≠ 0 →
      strstrInner mem (d + p) s 0 slen (dmax - p) = true →
      strstrOuter mem s slen d dmax = some (d + p) := by
  intro p
  induction p with
  | zero =>
    intro dmax d hlt _ _ hne hinner
    obtain ⟨dm, rfl⟩ : ∃ dm, dmax = dm + 1 := ⟨dmax - 1, by omega⟩
    simp only [Nat.add_zero] at hne
    simp only [Nat.add_zero, Nat.sub_zero] at hinner
    simp only [strstrOuter, if_neg hne, if_pos hinner, Nat.add_zero]
  | succ p ih =>
    intro dmax d hlt hreach hfail hne hinner
    obtain ⟨dm, rfl⟩ : ∃ dm, dmax = dm + 1 := ⟨dmax - 1, by omega⟩
    have h0 : mem d ≠ 0 := by simpa using hreach 0 (by omega)
    have hf0 : strstrInner mem d s 0 slen (dm + 1) = false := by
      simpa using hfail 0 (by omega)
    simp only [strstrOuter, if_neg h0, if_neg (by simp [hf0] :
      ¬ strstrInner mem d s 0 slen (dm + 1) = true)]
    have e1 : d + (p + 1) = d + 1 + p := by omega
    rw [e1]
    apply ih dm (d + 1) (by omega)
    · intro q hq
      have h' := hreach (q + 1) (by omega)
      have e : d + (q + 1) = d + 1 + q := by omega
      rwa [e] at h'
    · intro q hq
      have h' := hfail (q + 1) (by omega)
      have e : d + (q + 1) = d + 1 + q := by omega
      have e2 : dm + 1 - (q + 1) = dm - q := by omega
      rwa [e, e2] at h'
    · have e : d + (p + 1) = d + 1 + p := by omega
      rwa [e] at hne
    · have e : d + (p + 1) = d + 1 + p := by omega
      have e2 : dm + 1 - (p + 1) = dm - p := by omega
      rwa [e, e2] at hinner

lemma strstrOuter_none (mem : Mem) (s slen : Nat) :
    ∀ dmax d,
      (∀ p < dmax, (∀ q ≤ p, mem (d + q) ≠ 0) →
        strstrInner mem (d + p) s 0 slen (dmax - p) = false) →
      strstrOuter mem s slen d dmax = none := by
  intro dmax
  induction dmax with
  | zero => intro d _; rfl
  | succ dm ih =>
    intro d h
    by_cases h0 : mem d = 0
    · simp only [strstrOuter, if_pos h0]
    · have hf0 : strstrInner mem d s 0 slen (dm + 1) = false := by
        have h' := h 0 (by omega) ?_
        · simpa using h'
        · intro q hq
          have hq0 : q = 0 := by omega
          subst hq0
          simpa using h0
      simp only [strstrOuter, if_neg h0, if_neg (by simp [hf0] :
        ¬ strstrInner mem d s 0 slen (dm + 1) = true)]
      apply ih
      intro p hp hreach
      have h' := h (p + 1) (by omega) ?_
      · have e : d + (p + 1) = d + 1 + p := by omega
        have e2 : dm + 1 - (p + 1) = dm - p := by omega
        rwa [e, e2] at h'
      · intro q hq
        cases q with
        | zero => simpa using h0
        | succ q' =>
          have hr := hreach q' (by omega)
          have e : d + (q' + 1) = d + 1 + q' := by omega
          rwa [e]

/-- Claim C3: for every haystack with valid `dmax` and non-empty needle
with valid `slen` such that the bounded needle occurs in the haystack
within the `dmax`/terminator bounds, `strstr_s` returns `EOK` and sets
the output to the leftmost matching position in the haystack. -/
theorem strstr_s_finds_leftmost (mem : Mem) (dest dmax src slen : Nat)
    (hdest : dest ≠ 0) (hdmax1 : 1 ≤ dmax) (hdmax2 : dmax ≤ RSIZE_MAX_STR)
    (hsrc : src ≠ 0) (hslen1 : 1 ≤ slen) (hslen2 : slen ≤ RSIZE_MAX_STR)
    (hn : 1 ≤ boundedLen mem src slen)
    (H : ∃ p, p + boundedLen mem src slen ≤ dmax ∧
      occursAt mem dest src (boundedLen mem src slen) p) :
    (strstr_s mem dest dmax src slen false).ret = EOK ∧
    (strstr_s mem dest dmax src slen false).substring = some (dest + Nat.find H) ∧
    ∀ p, p + boundedLen mem src slen ≤ dmax →
      occursAt mem dest src (boundedLen mem src slen) p → Nat.find H ≤ p := by
  have hsrc0 : mem src ≠ 0 := mem_ne_zero_of_boundedLen_pos mem src slen hn
  by_cases hds : dest = src
  · have hres : strstr_s mem dest dmax src slen false = ⟨EOK, some dest, []⟩ := by
      unfold strstr_s
      rw [if_neg (by decide), if_neg hdest, if_neg (by omega), if_neg (by omega),
        if_neg hsrc, if_neg (by omega), if_neg (by omega), if_pos (Or.inr hds)]
    have hfind : Nat.find H = 0 := by
      rw [Nat.find_eq_zero]
      obtain ⟨p, hp, -⟩ := H
      refine ⟨by omega, ?_, ?_⟩
      · intro q hq; exact absurd hq (by omega)
      · intro j hj
        rw [hds]
        simp
    refine ⟨by simp [hres], by simp [hres, hfind], ?_⟩
    intro p hle hocc
    rw [hfind]
    omega
  · have hspec := Nat.find_spec H
    obtain ⟨hle0, hocc0⟩ := hspec
    have houter : strstrOuter mem src slen dest dmax = some (dest + Nat.find H) := by
      apply strstrOuter_found mem src slen (Nat.find H) dmax dest
      · omega
      · exact hocc0.1
      · intro q hq
        rcases Bool.eq_false_or_eq_true
          (strstrInner mem (dest + q) src 0 slen (dmax - q)) with hb | hb
        swap
        · exact hb
        · exfalso
          rw [strstrInner_spec mem (dest + q) src slen (dmax - q) hslen1] at hb
          obtain ⟨-, hb2, hb3⟩ := hb
          have hPq : q + boundedLen mem src slen ≤ dmax ∧
              occursAt mem dest src (boundedLen mem src slen) q := by
            refine ⟨by omega, fun q' hq' => hocc0.1 q' (by omega), ?_⟩
            intro j hj
            have h' := hb3 j hj
            have e : dest + q + j = dest + (q + j) := by omega
            rwa [e] at h'
          exact Nat.find_min H hq hPq
      · have h' := hocc0.2 0 (by omega)
        simp only [Nat.add_zero] at h'
        rw [h']
        simpa using hsrc0
      · rw [strstrInner_spec mem (dest + Nat.find H) src slen (dmax - Nat.find H) hslen1]
        refine ⟨hn, by omega, ?_⟩
        intro j hj
        have h' := hocc0.2 j hj
        have e : dest + Nat.find H + j = dest + (Nat.find H + j) := by omega
        rw [e]
        exact h'
    have hres : strstr_s mem dest dmax src slen false
        = ⟨EOK, some (dest + Nat.find H), []⟩ := by
      unfold strstr_s
      rw [if_neg (by decide), if_neg hdest, if_neg (by omega), if_neg (by omega),
        if_neg hsrc, if_neg (by omega), if_neg (by omega),
        if_neg (by push_neg; exact ⟨hsrc0, hds⟩), houter]
    refine ⟨by simp [hres], by simp [hres], ?_⟩
    intro p hle hocc
    exact Nat.find_min' H ⟨hle, hocc⟩

/-- Concrete memory for the C3 witness: haystack bytes of the string
bcabc at 100, needle abc at 200. -/
def exMem3 : Mem := layout2 100 [98, 99, 97, 98, 99] 200 [97, 98, 99]

/-- Witness for C3 at a concrete input: the needle abc occurs in
bcabc, and the search reports success at an offset from the
haystack base. -/
theorem strstr_s_finds_leftmost_witness :
    (strstr_s exMem3 100 5 200 3 false).ret = EOK ∧
    ∃ p, (strstr_s exMem3 100 5 200 3 false).substring = some (100 + p) := by
  have h := strstr_s_finds_leftmost exMem3 100 5 200 3 (by decide) (by decide)
    (by decide) (by decide) (by decide) (by decide) (by decide) ⟨2, by decide⟩
  exact ⟨h.1, ⟨Nat.find _, h.2.1⟩⟩

/-- Claim C6: for validated inputs, if the needle's first character is
the terminator or the needle pointer equals the haystack pointer, both
searches succeed immediately with the output at the start of the
haystack, with no handler report, independent of the haystack content
(the result is a literal not involving the scan). -/
theorem empty_or_aliased_needle_matches_start (mem : Mem)
    (dest dmax src slen : Nat)
    (hdest : dest ≠ 0) (hdmax1 : 1 ≤ dmax) (hdmax2 : dmax ≤ RSIZE_MAX_STR)
    (hsrc : src ≠ 0) (hslen1 : 1 ≤ slen) (hslen2 : slen ≤ RSIZE_MAX_STR)
    (h : mem src = 0 ∨ dest = src) :
    strstr_s mem dest dmax src slen false = ⟨EOK, some dest, []⟩ ∧
    strcasestr_s mem dest dmax src slen false = ⟨EOK, some dest, []⟩ := by
  constructor
  · unfold strstr_s
    rw [if_neg (by decide), if_neg hdest, if_neg (by omega), if_neg (by omega),
      if_neg hsrc, if_neg (by omega), if_neg (by omega), if_pos h]
  · unfold strcasestr_s
    rw [if_neg (by decide), if_neg hdest, if_neg (by omega), if_neg (by omega),
      if_neg hsrc, if_neg (by omega), if_neg (by omega), if_pos h]

/-- Witness for C6: an empty needle at 200 against the haystack A at
100 matches at the haystack start in both searches. -/
theorem empty_or_aliased_needle_matches_start_witness :
    strstr_s (layout 100 [65]) 100 1 200 3 false = ⟨EOK, some 100, []⟩ ∧
    strcasestr_s (layout 100 [65]) 100 1 200 3 false = ⟨EOK, some 100, []⟩ :=
  empty_or_aliased_needle_matches_start (layout 100 [65]) 100 1 200 3
    (by decide) (by decide) (by decide) (by decide) (by decide) (by decide)
    (Or.inl (by decide))

/-- Claim C2 counterexample: `strcspn_s` called with a valid `dest`,
`dmax = 0` and a NULL `src` reports NullPointer for `src` and returns
`ESNULLP`, not the ZeroLength status the claim asserts. -/
theorem strcspn_s_order_counterexample :
    (strcspn_s (layout 100 [65]) 100 0 0 3 false).ret = ESNULLP ∧
    (strcspn_s (layout 100 [65]) 100 0 0 3 false).reports
      = [("strcspn_s: src is null", ESNULLP)] ∧
    ESNULLP ≠ ESZEROL := by
  refine ⟨rfl, rfl, by decide⟩

/-- Claim C2 (amended): the first failing validation check determines
the status and short-circuits the rest.  `strstr_s` and `strcasestr_s`
check in the order output pointer, `dest` null, `dmax` zero, `dmax`
ceiling, `src` null, `slen` zero, `slen` ceiling; `strcspn_s` checks the
secondary pointer `src` for null right after `dest`, before any length
check; `strisuppercase_s` checks `dest` null, `dmax` zero, `dmax`
ceiling. -/
theorem validation_order :
    (∀ mem dest dmax src slen, ∀ b : Bool,
      (b = true → (strstr_s mem dest dmax src slen b).ret = ESNULLP) ∧
      (b = false → dest = 0 →
        (strstr_s mem dest dmax src slen b).ret = ESNULLP) ∧
      (b = false → dest ≠ 0 → dmax = 0 →
        (strstr_s mem dest dmax src slen b).ret = ESZEROL) ∧
      (b = false → dest ≠ 0 → dmax > RSIZE_MAX_STR →
        (strstr_s mem dest dmax src slen b).ret = ESLEMAX) ∧
      (b = false → dest ≠ 0 → 1 ≤ dmax → dmax ≤ RSIZE_MAX_STR → src = 0 →
        (strstr_s mem dest dmax src slen b).ret = ESNULLP) ∧
      (b = false → dest ≠ 0 → 1 ≤ dmax → dmax ≤ RSIZE_MAX_STR → src ≠ 0 →
        slen = 0 → (strstr_s mem dest dmax src slen b).ret = ESZEROL) ∧
      (b = false → dest ≠ 0 → 1 ≤ dmax → dmax ≤ RSIZE_MAX_STR → src ≠ 0 →
        slen > RSIZE_MAX_STR →
        (strstr_s mem dest dmax src slen b).ret = ESLEMAX)) ∧
    (∀ mem dest dmax src slen, ∀ b : Bool,
      (b = true → (strcasestr_s mem dest dmax src slen b).ret = ESNULLP) ∧
      (b = false → dest = 0 →
        (strcasestr_s mem dest dmax src slen b).ret = ESNULLP) ∧
      (b = false → dest ≠ 0 → dmax = 0 →
        (strcasestr_s mem dest dmax src slen b).ret = ESZEROL) ∧
      (b = false → dest ≠ 0 → dmax > RSIZE_MAX_STR →
        (strcasestr_s mem dest dmax src slen b).ret = ESLEMAX) ∧
      (b = false → dest ≠ 0 → 1 ≤ dmax → dmax ≤ RSIZE_MAX_STR → src = 0 →
        (strcasestr_s mem dest dmax src slen b).ret = ESNULLP) ∧
      (b = false → dest ≠ 0 → 1 ≤ dmax → dmax ≤ RSIZE_MAX_STR → src ≠ 0 →
        slen = 0 → (strcasestr_s mem dest dmax src slen b).ret = ESZEROL) ∧
      (b = false → dest ≠ 0 → 1 ≤ dmax → dmax ≤ RSIZE_MAX_STR → src ≠ 0 →
        slen > RSIZE_MAX_STR →
        (strcasestr_s mem dest dmax src slen b).ret = ESLEMAX)) ∧
    (∀ mem dest dmax src slen, ∀ b : Bool,
      (b = true → (strcspn_s mem dest dmax src slen b).ret = ESNULLP) ∧
      (b = false → dest = 0 →
        (strcspn_s mem dest dmax src slen b).ret = ESNULLP) ∧
      (b = false → dest ≠ 0 → src = 0 →
        (strcspn_s mem dest dmax src slen b).ret = ESNULLP) ∧
      (b = false → dest ≠ 0 → src ≠ 0 → dmax = 0 →
        (strcspn_s mem dest dmax src slen b).ret = ESZEROL) ∧
      (b = false → dest ≠ 0 → src ≠ 0 → dmax > RSIZE_MAX_STR →
        (strcspn_s mem dest dmax src slen b).ret = ESLEMAX) ∧
      (b = false → dest ≠ 0 → src ≠ 0 → 1 ≤ dmax → dmax ≤ RSIZE_MAX_STR →
        slen = 0 → (strcspn_s mem dest dmax src slen b).ret = ESZEROL) ∧
      (b = false → dest ≠ 0 → src ≠ 0 → 1 ≤ dmax → dmax ≤ RSIZE_MAX_STR →
        slen > RSIZE_MAX_STR →
        (strcspn_s mem dest dmax src slen b).ret = ESLEMAX)) ∧
    (∀ mem dest dmax fuel,
      (dest = 0 → (strisuppercase_s mem dest dmax fuel).2
        = [("strisuppercase_s: dest is null", ESNULLP)]) ∧
      (dest ≠ 0 → dmax = 0 → (strisuppercase_s mem dest dmax fuel).2
        = [("strisuppercase_s: dmax is 0", ESZEROL)]) ∧
      (dest ≠ 0 → dmax > RSIZE_MAX_STR → (strisuppercase_s mem dest dmax fuel).2
        = [("strisuppercase_s: dmax exceeds max", ESLEMAX)])) := by
  refine ⟨?_, ?_, ?_, ?_⟩
  · intro mem dest dmax src slen b
    refine ⟨?_, ?_, ?_, ?_, ?_, ?_, ?_⟩
    · rintro rfl; rfl
    · rintro rfl rfl; rfl
    · rintro rfl hd rfl
      unfold strstr_s
      rw [if_neg (by decide), if_neg hd, if_pos rfl]
    · rintro rfl hd hm
      unfold strstr_s
      rw [if_neg (by decide), if_neg hd, if_neg (by omega), if_pos hm]
    · rintro rfl hd h1 h2 rfl
      unfold strstr_s
      rw [if_neg (by decide), if_neg hd, if_neg (by omega), if_neg (by omega),
        if_pos rfl]
    · rintro rfl hd h1 h2 hs rfl
      unfold strstr_s
      rw [if_neg (by decide), if_neg hd, if_neg (by omega), if_neg (by omega),
        if_neg hs, if_pos rfl]
    · rintro rfl hd h1 h2 hs hl
      unfold strstr_s
      by_cases hs0 : slen = 0
      · omega
      · rw [if_neg (by decide), if_neg hd, if_neg (by omega), if_neg (by omega),
          if_neg hs, if_neg hs0, if_pos hl]
  · intro mem dest dmax src slen b
    refine ⟨?_, ?_, ?_, ?_, ?_, ?_, ?_⟩
    · rintro rfl; rfl
    · rintro rfl rfl; rfl
    · rintro rfl hd rfl
      unfold strcasestr_s
      rw [if_neg (by decide), if_neg hd, if_pos rfl]
    · rintro rfl hd hm
      unfold strcasestr_s
      rw [if_neg (by decide), if_neg hd, if_neg (by omega), if_pos hm]
    · rintro rfl hd h1 h2 rfl
      unfold strcasestr_s
      rw [if_neg (by decide), if_neg hd, if_neg (by omega), if_neg (by omega),
        if_pos rfl]
    · rintro rfl hd h1 h2 hs rfl
      unfold strcasestr_s
      rw [if_neg (by decide), if_neg hd, if_neg (by omega), if_neg (by omega),
        if_neg hs, if_pos rfl]
    · rintro rfl hd h1 h2 hs hl
      unfold strcasestr_s
      by_cases hs0 : slen = 0
      · omega
      · rw [if_neg (by decide), if_neg hd, if_neg (by omega), if_neg (by omega),
          if_neg hs, if_neg hs0, if_pos hl]
  · intro mem dest dmax src slen b
    refine ⟨?_, ?_, ?_, ?_, ?_, ?_, ?_⟩
    · rintro rfl; rfl
    · rintro rfl rfl; rfl
    · rintro rfl hd rfl
      unfold strcspn_s
      rw [if_neg (by decide), if_neg hd, if_pos rfl]
    · rintro rfl hd hs rfl
      unfold strcspn_s
      rw [if_neg (by decide), if_neg hd, if_neg hs, if_pos rfl]
    · rintro rfl hd hs hm
      unfold strcspn_s
      rw [if_neg (by decide), if_neg hd, if_neg hs, if_neg (by omega), if_pos hm]
    · rintro rfl hd hs h1 h2 rfl
      unfold strcspn_s
      rw [if_neg (by decide), if_neg hd, if_neg hs, if_neg (by omega),
        if_neg (by omega), if_pos rfl]
    · rintro rfl hd hs h1 h2 hl
      unfold strcspn_s
      by_cases hs0 : slen = 0
      · omega
      · rw [if_neg (by decide), if_neg hd, if_neg hs, if_neg (by omega),
          if_neg (by omega), if_neg hs0, if_pos hl]
  · intro mem dest dmax fuel
    refine ⟨?_, ?_, ?_⟩
    · rintro rfl; rfl
    · rintro hd rfl
      unfold strisuppercase_s
      rw [if_neg hd, if_pos rfl]
    · rintro hd hm
      unfold strisuppercase_s
      rw [if_neg hd, if_neg (by omega), if_pos hm]

/-- Witness for C2 (amended): concrete calls hitting the first failing
check of each operation. -/
theorem validation_order_witness :
    (strstr_s (layout 100 [65]) 100 1 200 0 false).ret = ESZEROL ∧
    (strcspn_s (layout 100 [65]) 100 0 0 3 false).ret = ESNULLP := by
  constructor
  · exact (validation_order.1 (layout 100 [65]) 100 1 200 0 false).2.2.2.2.2.1
      rfl (by decide) (by decide) (by decide) (by decide) rfl
  · exact (validation_order.2.2.1 (layout 100 [65]) 100 0 0 3 false).2.2.1
      rfl (by decide) rfl

lemma strstr_s_notfound_shape (mem : Mem) (dest dmax src slen : Nat) (b : Bool)
    (h : (strstr_s mem dest dmax src slen b).ret = ESNOTFND) :
    (strstr_s mem dest dmax src slen b).substring = none ∧
    (strstr_s mem dest dmax src slen b).reports = [] := by
  unfold strstr_s at *
  split_ifs at h ⊢ <;> first
    | exact absurd h (by decide)
    | (cases hout : strstrOuter mem src slen dest dmax <;> simp_all [EOK, ESNOTFND])

lemma strcasestr_s_notfound_shape (mem : Mem) (dest dmax src slen : Nat)
    (b : Bool) (h : (strcasestr_s mem dest dmax src slen b).ret = ESNOTFND) :
    (strcasestr_s mem dest dmax src slen b).substring = none ∧
    (strcasestr_s mem dest dmax src slen b).reports = [] := by
  unfold strcasestr_s at *
  split_ifs at h ⊢ <;> first
    | exact absurd h (by decide)
    | (cases hout : strcasestrOuter mem src slen dest dmax <;> simp_all [EOK, ESNOTFND])

/-- Claim C9: for each operation, a null primary buffer, a zero `dmax`,
or a `dmax` above the ceiling (the other arguments being acceptable up
to that check) yields exactly one handler report, the empty/zero output
and the corresponding violation status, as a literal result independent
of memory; and a search returning NotFound has empty output and no
handler report. -/
theorem violations_report_once_and_reset (mem : Mem)
    (dest dmax src slen fuel : Nat) :
    (dest = 0 → strstr_s mem dest dmax src slen false
      = ⟨ESNULLP, none, [("strstr_s: dest is null", ESNULLP)]⟩) ∧
    (dest ≠ 0 → dmax = 0 → strstr_s mem dest dmax src slen false
      = ⟨ESZEROL, none, [("strstr_s: dmax is 0", ESZEROL)]⟩) ∧
    (dest ≠ 0 → dmax > RSIZE_MAX_STR → strstr_s mem dest dmax src slen false
      = ⟨ESLEMAX, none, [("strstr_s: dmax exceeds max", ESLEMAX)]⟩) ∧
    (dest = 0 → strcasestr_s mem dest dmax src slen false
      = ⟨ESNULLP, none, [("strcasestr_s: dest is null", ESNULLP)]⟩) ∧
    (dest ≠ 0 → dmax = 0 → strcasestr_s mem dest dmax src slen false
      = ⟨ESZEROL, none, [("strcasestr_s: dmax is 0", ESZEROL)]⟩) ∧
    (dest ≠ 0 → dmax > RSIZE_MAX_STR → strcasestr_s mem dest dmax src slen false
      = ⟨ESLEMAX, none, [("strcasestr_s: dmax exceeds max", ESLEMAX)]⟩) ∧
    (dest = 0 → strcspn_s mem dest dmax src slen false
      = ⟨ESNULLP, 0, [("strcspn_s: dest is null", ESNULLP)]⟩) ∧
    (dest ≠ 0 → src ≠ 0 → dmax = 0 → strcspn_s mem dest dmax src slen false
      = ⟨ESZEROL, 0, [("strcspn_s: dmax is 0", ESZEROL)]⟩) ∧
    (dest ≠ 0 → src ≠ 0 → dmax > RSIZE_MAX_STR →
      strcspn_s mem dest dmax src slen false
      = ⟨ESLEMAX, 0, [("strcspn_s: dmax exceeds max", ESLEMAX)]⟩) ∧
    (dest = 0 → strisuppercase_s mem dest dmax fuel
      = (some false, [("strisuppercase_s: dest is null", ESNULLP)])) ∧
    (dest ≠ 0 → dmax = 0 → strisuppercase_s mem dest dmax fuel
      = (some false, [("strisuppercase_s: dmax is 0", ESZEROL)])) ∧
    (dest ≠ 0 → dmax > RSIZE_MAX_STR → strisuppercase_s mem dest dmax fuel
      = (some false, [("strisuppercase_s: dmax exceeds max", ESLEMAX)])) ∧
    ((strstr_s mem dest dmax src slen false).ret = ESNOTFND →
      (strstr_s mem dest dmax src slen false).substring = none ∧
      (strstr_s mem dest dmax src slen false).reports = []) ∧
    ((strcasestr_s mem dest dmax src slen false).ret = ESNOTFND →
      (strcasestr_s mem dest dmax src slen false).substring = none ∧
      (strcasestr_s mem dest dmax src slen false).reports = []) := by
  refine ⟨?_, ?_, ?_, ?_, ?_, ?_, ?_, ?_, ?_, ?_, ?_, ?_, ?_, ?_⟩
  · rintro rfl
    unfold strstr_s
    rw [if_neg (by decide), if_pos rfl]
  · rintro hd rfl
    unfold strstr_s
    rw [if_neg (by decide), if_neg hd, if_pos rfl]
  · rintro hd hm
    unfold strstr_s
    rw [if_neg (by decide), if_neg hd, if_neg (by omega), if_pos hm]
  · rintro rfl
    unfold strcasestr_s
    rw [if_neg (by decide), if_pos rfl]
  · rintro hd rfl
    unfold strcasestr_s
    rw [if_neg (by decide), if_neg hd, if_pos rfl]
  · rintro hd hm
    unfold strcasestr_s
    rw [if_neg (by decide), if_neg hd, if_neg (by omega), if_pos hm]
  · rintro rfl
    unfold strcspn_s
    rw [if_neg (by decide), if_pos rfl]
  · rintro hd hs rfl
    unfold strcspn_s
    rw [if_neg (by decide), if_neg hd, if_neg hs, if_pos rfl]
  · rintro hd hs hm
    unfold strcspn_s
    rw [if_neg (by decide), if_neg hd, if_neg hs, if_neg (by omega), if_pos hm]
  · rintro rfl
    unfold strisuppercase_s
    rw [if_pos rfl]
  · rintro hd rfl
    unfold strisuppercase_s
    rw [if_neg hd, if_pos rfl]
  · rintro hd hm
    unfold strisuppercase_s
    rw [if_neg hd, if_neg (by omega), if_pos hm]
  · exact strstr_s_notfound_shape mem dest dmax src slen false
  · exact strcasestr_s_notfound_shape mem dest dmax src slen false

/-- Witness for C9: concrete violating calls and a concrete NotFound
search with no report and empty output. -/
theorem violations_report_once_and_reset_witness :
    strstr_s (layout 100 [65]) 0 3 200 3 false
      = ⟨ESNULLP, none, [("strstr_s: dest is null", ESNULLP)]⟩ ∧
    strcspn_s (layout 100 [65]) 100 5000 200 3 false
      = ⟨ESLEMAX, 0, [("strcspn_s: dmax exceeds max", ESLEMAX)]⟩ ∧
    ((strstr_s (layout2 100 [65] 200 [66]) 100 1 200 1 false).substring = none ∧
      (strstr_s (layout2 100 [65] 200 [66]) 100 1 200 1 false).reports = []) := by
  refine ⟨?_, ?_, ?_⟩
  · exact (violations_report_once_and_reset (layout 100 [65]) 0 3 200 3 0).1 rfl
  · exact (violations_report_once_and_reset (layout 100 [65]) 100 5000 200 3
      0).2.2.2.2.2.2.2.2.1 (by decide) (by decide) (by decide)
  · exact (violations_report_once_and_reset (layout2 100 [65] 200 [66]) 100 1 200
      1 0).2.2.2.2.2.2.2.2.2.2.2.2.1 (by decide)

lemma strcspnInner_iff (mem : Mem) (c : Nat) :
    ∀ smax s, strcspnInner mem c s smax = true ↔ c ∈ exclChars mem s smax := by
  intro smax
  induction smax with
  | zero => intro s; simp [strcspnInner, exclChars]
  | succ k ih =>
    intro s
    simp only [strcspnInner, exclChars]
    by_cases h0 : mem s = 0
    · simp [h0]
    · rw [if_neg h0, if_neg h0]
      by_cases hc : c = mem s
      · simp [hc]
      · rw [if_neg hc]
        simp [List.mem_cons, hc, ih (s + 1)]

lemma strcspnOuter_spec (mem : Mem) (s slen : Nat) :
    ∀ dmax d count, ∃ k, strcspnOuter mem s slen d dmax count = count + k ∧
      k ≤ dmax ∧
      (∀ q < k, mem (d + q) ≠ 0 ∧
        strcspnInner mem (mem (d + q)) s slen = false) ∧
      (k < dmax → mem (d + k) = 0 ∨
        strcspnInner mem (mem (d + k)) s slen = true) := by
  intro dmax
  induction dmax with
  | zero =>
    intro d count
    refine ⟨0, by simp [strcspnOuter], by omega, ?_, ?_⟩
    · intro q hq; exact absurd hq (by omega)
    · intro h; exact absurd h (by omega)
  | succ dm ih =>
    intro d count
    by_cases h0 : mem d = 0
    · refine ⟨0, by simp [strcspnOuter, h0], by omega, ?_, ?_⟩
      · intro q hq; exact absurd hq (by omega)
      · intro _; exact Or.inl (by simpa using h0)
    · by_cases hin : strcspnInner mem (mem d) s slen = true
      · refine ⟨0, by simp [strcspnOuter, h0, hin], by omega, ?_, ?_⟩
        · intro q hq; exact absurd hq (by omega)
        · intro _; exact Or.inr (by simpa using hin)
      · have hin' : strcspnInner mem (mem d) s slen = false := by
          cases hb : strcspnInner mem (mem d) s slen
          · rfl
          · exact absurd hb hin
        obtain ⟨k, hk1, hk2, hk3, hk4⟩ := ih (d + 1) (count + 1)
        refine ⟨k + 1, ?_, by omega, ?_, ?_⟩
        · have hstep : strcspnOuter mem s slen d (dm + 1) count
              = strcspnOuter mem s slen (d + 1) dm (count + 1) := by
            simp [strcspnOuter, h0, hin]
          rw [hstep, hk1]
          omega
        · intro q hq
          cases q with
          | zero => exact ⟨by simpa using h0, by simpa using hin'⟩
          | succ q' =>
            have h' := hk3 q' (by omega)
            have e : d + (q' + 1) = d + 1 + q' := by omega
            rw [e]
            exact h'
        · intro hlt
          have h' := hk4 (by omega)
          have e : d + (k + 1) = d + 1 + k := by omega
          rw [e]
          exact h'

/-- Claim C7: for validated inputs, `strcspn_s` always returns `EOK` and
writes to the count the number of leading subject characters, within the
`dmax`/terminator bound, that do not occur in the bounded exclusion set:
every counted character is non-null and outside the set, and if the
count stops short of `dmax` it stops exactly at a terminator or at a
character of the set. -/
theorem strcspn_s_counts_complement_span (mem : Mem)
    (dest dmax src slen : Nat)
    (hdest : dest ≠ 0) (hsrc : src ≠ 0)
    (hdmax1 : 1 ≤ dmax) (hdmax2 : dmax ≤ RSIZE_MAX_STR)
    (hslen1 : 1 ≤ slen) (hslen2 : slen ≤ RSIZE_MAX_STR) :
    (strcspn_s mem dest dmax src slen false).ret = EOK ∧
    (strcspn_s mem dest dmax src slen false).count ≤ dmax ∧
    (∀ q < (strcspn_s mem dest dmax src slen false).count,
      mem (dest + q) ≠ 0 ∧ mem (dest + q) ∉ exclChars mem src slen) ∧
    ((strcspn_s mem dest dmax src slen false).count < dmax →
      mem (dest + (strcspn_s mem dest dmax src slen false).count) = 0 ∨
      mem (dest + (strcspn_s mem dest dmax src slen false).count)
        ∈ exclChars mem src slen) := by
  have hres : strcspn_s mem dest dmax src slen false
      = ⟨EOK, strcspnOuter mem src slen dest dmax 0, []⟩ := by
    unfold strcspn_s
    rw [if_neg (by decide), if_neg hdest, if_neg hsrc, if_neg (by omega),
      if_neg (by omega), if_neg (by omega), if_neg (by omega)]
  obtain ⟨k, hk1, hk2, hk3, hk4⟩ := strcspnOuter_spec mem src slen dmax dest 0
  rw [Nat.zero_add] at hk1
  rw [hres]
  refine ⟨rfl, ?_, ?_, ?_⟩
  · simpa [hk1] using hk2
  · intro q hq
    simp only [hk1] at hq
    obtain ⟨hq1, hq2⟩ := hk3 q hq
    refine ⟨hq1, ?_⟩
    rw [← strcspnInner_iff mem (mem (dest + q)) slen src]
    simp [hq2]
  · intro hlt
    simp only [hk1] at hlt ⊢
    rcases hk4 hlt with h | h
    · exact Or.inl h
    · exact Or.inr ((strcspnInner_iff mem (mem (dest + k)) slen src).mp h)

/-- Witness for C7: subject bytes of 12345abc, exclusion set abc;
the count stops at the first excluded character, 5, with status `EOK`. -/
theorem strcspn_s_counts_complement_span_witness :
    (strcspn_s (layout2 100 [49, 50, 51, 52, 53, 97, 98, 99] 200 [97, 98, 99])
      100 8 200 3 false).ret = EOK ∧
    (strcspn_s (layout2 100 [49, 50, 51, 52, 53, 97, 98, 99] 200 [97, 98, 99])
      100 8 200 3 false).count = 5 := by
  refine ⟨(strcspn_s_counts_complement_span
    (layout2 100 [49, 50, 51, 52, 53, 97, 98, 99] 200 [97, 98, 99]) 100 8 200 3
    (by decide) (by decide) (by decide) (by decide) (by decide) (by decide)).1,
    by decide⟩

lemma strisupLoop_eq (mem : Mem) :
    ∀ K fuel d, K < fuel → (∀ k < K, mem (d + k) ≠ 0) → mem (d + K) = 0 →
      strisupLoop mem d fuel
        = some (decide (∀ k < K, 65 ≤ mem (d + k) ∧ mem (d + k) ≤ 90)) := by
  intro K
  induction K with
  | zero =>
    intro fuel d hf _ hK
    obtain ⟨f, rfl⟩ : ∃ f, fuel = f + 1 := ⟨fuel - 1, by omega⟩
    simp only [strisupLoop]
    rw [if_pos (by simpa using hK)]
    simp
  | succ K ih =>
    intro fuel d hf hne hK
    obtain ⟨f, rfl⟩ : ∃ f, fuel = f + 1 := ⟨fuel - 1, by omega⟩
    have h0 : mem d ≠ 0 := by simpa using hne 0 (by omega)
    simp only [strisupLoop, if_neg h0]
    by_cases hout : mem d < 65 ∨ mem d > 90
    · rw [if_pos hout]
      have hnot : ¬ (∀ k < K + 1, 65 ≤ mem (d + k) ∧ mem (d + k) ≤ 90) := by
        intro hall
        have := hall 0 (by omega)
        simp only [Nat.add_zero] at this
        omega
      simp [hnot]
    · rw [if_neg hout]
      push_neg at hout
      have ihres := ih f (d + 1) (by omega) ?_ ?_
      · rw [ihres]
        congr 1
        rw [decide_eq_decide]
        constructor
        · intro hall k hk
          cases k with
          | zero =>
            simp only [Nat.add_zero]
            omega
          | succ k' =>
            have h' := hall k' (by omega)
            have e : d + 1 + k' = d + (k' + 1) := by omega
            rwa [e] at h'
        · intro hall k hk
          have h' := hall (k + 1) (by omega)
          have e : d + (k + 1) = d + 1 + k := by omega
          rwa [e] at h'
      · intro k hk
        have h' := hne (k + 1) (by omega)
        have e : d + (k + 1) = d + 1 + k := by omega
        rwa [e] at h'
      · have e : d + (K + 1) = d + 1 + K := by omega
        rwa [e] at hK

/-- Claim C8: with the terminator at distance `K`, `strisuppercase_s`
on validated input returns true exactly when the string is non-empty
and every character before the terminator lies in the range `A`..`Z`
(so the empty string yields false), and every validation failure also
yields false — the caller cannot distinguish the two. -/
theorem strisuppercase_s_spec (mem : Mem) (dest dmax fuel K : Nat)
    (hf : K < fuel) (hpre : ∀ k < K, mem (dest + k) ≠ 0)
    (hterm : mem (dest + K) = 0) :
    (dest ≠ 0 → 1 ≤ dmax → dmax ≤ RSIZE_MAX_STR →
      strisuppercase_s mem dest dmax fuel
        = (some (decide (1 ≤ K ∧
            ∀ k < K, 65 ≤ mem (dest + k) ∧ mem (dest + k) ≤ 90)), [])) ∧
    (dest = 0 → (strisuppercase_s mem dest dmax fuel).1 = some false) ∧
    (dmax = 0 → (strisuppercase_s mem dest dmax fuel).1 = some false) ∧
    (dmax > RSIZE_MAX_STR → (strisuppercase_s mem dest dmax fuel).1
      = some false) := by
  refine ⟨?_, ?_, ?_, ?_⟩
  · intro hdest hdmax1 hdmax2
    unfold strisuppercase_s
    rw [if_neg hdest, if_neg (by omega), if_neg (by omega)]
    by_cases hK : K = 0
    · subst hK
      simp only [Nat.add_zero] at hterm
      rw [if_pos hterm]
      simp
    · have h0 : mem dest ≠ 0 := by simpa using hpre 0 (by omega)
      rw [if_neg h0, strisupLoop_eq mem K fuel dest hf hpre hterm]
      have : (1 ≤ K ∧ ∀ k < K, 65 ≤ mem (dest + k) ∧ mem (dest + k) ≤ 90)
          ↔ (∀ k < K, 65 ≤ mem (dest + k) ∧ mem (dest + k) ≤ 90) := by
        constructor
        · exact fun h => h.2
        · exact fun h => ⟨by omega, h⟩
      rw [Prod.mk.injEq]
      refine ⟨?_, rfl⟩
      congr 1
      rw [decide_eq_decide]
      exact this.symm
  · rintro rfl
    unfold strisuppercase_s
    rw [if_pos rfl]
  · intro hz
    unfold strisuppercase_s
    by_cases h1 : dest = 0
    · rw [if_pos h1]
    · rw [if_neg h1, if_pos hz]
  · intro hm
    unfold strisuppercase_s
    by_cases h1 : dest = 0
    · rw [if_pos h1]
    · rw [if_neg h1, if_neg (by omega), if_pos hm]

/-- Witness for C8: HELLO is all uppercase, HELLo is not, and the empty
string fails the predicate; a `dmax` above the ceiling also yields
false. -/
theorem strisuppercase_s_spec_witness :
    strisuppercase_s (layout 100 [72, 69, 76, 76, 79]) 100 5 9 = (some true, []) ∧
    strisuppercase_s (layout 100 [72, 69, 76, 76, 111]) 100 5 9
      = (some false, []) ∧
    strisuppercase_s (layout 100 []) 100 5 9 = (some false, []) ∧
    (strisuppercase_s (layout 100 [72]) 100 5000 9).1 = some false := by
  refine ⟨?_, ?_, ?_, ?_⟩
  · have h := (strisuppercase_s_spec (layout 100 [72, 69, 76, 76, 79]) 100 5 9 5
      (by decide) (by decide) (by decide)).1 (by decide) (by decide) (by decide)
    rw [h]
    decide
  · have h := (strisuppercase_s_spec (layout 100 [72, 69, 76, 76, 111]) 100 5 9 5
      (by decide) (by decide) (by decide)).1 (by decide) (by decide) (by decide)
    rw [h]
    decide
  · have h := (strisuppercase_s_spec (layout 100 []) 100 5 9 0
      (by decide) (by decide) (by decide)).1 (by decide) (by decide) (by decide)
    rw [h]
    decide
  · exact (strisuppercase_s_spec (layout 100 [72]) 100 5000 9 1
      (by decide) (by decide) (by decide)).2.2.2 (by decide)

/-- Claim C1: the scanning loop of `strisuppercase_s` ignores `dmax`
(the C loop `while (*dest)` decrements `dmax` but never tests it), so
the result can depend on a character at index at least `dmax`: two
memories agreeing on every index below `dmax = 1` (buffers AB and Ab)
produce different results. -/
theorem strisuppercase_s_reads_past_dmax :
    (∀ k < 1, layout 100 [65, 66] (100 + k) = layout 100 [65, 98] (100 + k)) ∧
    strisuppercase_s (layout 100 [65, 66]) 100 1 10
      ≠ strisuppercase_s (layout 100 [65, 98]) 100 1 10 ∧
    strisuppercase_s (layout 100 [65, 66]) 100 1 10 = (some true, []) ∧
    strisuppercase_s (layout 100 [65, 98]) 100 1 10 = (some false, []) := by
  refine ⟨by decide, by decide, by decide, by decide⟩

lemma strcasestrInner_le (mem : Mem) (d s : Nat) :
    ∀ dlen i len, strcasestrInner mem d s i len dlen = true →
      boundedLen mem (s + i) len ≤ dlen := by
  intro dlen
  induction dlen with
  | zero => intro i len h; simp [strcasestrInner] at h
  | succ dl ih =>
    intro i len h
    simp only [strcasestrInner] at h
    by_cases h0 : mem (d + i) = 0
    · rw [if_pos h0] at h; simp at h
    · rw [if_neg h0] at h
      by_cases h1 : toupper (mem (d + i)) ≠ toupper (mem (s + i))
      · rw [if_pos h1] at h; simp at h
      · rw [if_neg h1] at h
        by_cases hs0 : mem (s + i) = 0
        · rw [boundedLen_eq_zero mem (s + i) len (Or.inl hs0)]
          omega
        · rcases Nat.eq_zero_or_pos len with hl | hl
          · rw [boundedLen_eq_zero mem (s + i) len (Or.inr hl)]
            omega
          · obtain ⟨l, rfl⟩ : ∃ l, len = l + 1 := ⟨len - 1, by omega⟩
            have hblen : boundedLen mem (s + i) (l + 1)
                = boundedLen mem (s + (i + 1)) l + 1 := by
              have ha : s + i + 1 = s + (i + 1) := by omega
              simp only [boundedLen, if_neg hs0, ha]
            by_cases hsucc : mem (s + (i + 1)) = 0 ∨ l + 1 - 1 = 0
            · have hm0 : boundedLen mem (s + (i + 1)) l = 0 := by
                apply boundedLen_eq_zero
                rcases hsucc with hx | hx
                · exact Or.inl hx
                · exact Or.inr (by omega)
              rw [hblen, hm0]
              omega
            · rw [if_neg hsucc] at h
              have := ih (i + 1) (l + 1 - 1) h
              have hll : l + 1 - 1 = l := by omega
              rw [hll] at this
              rw [hblen]
              omega

lemma strcasestrOuter_none (mem : Mem) (s slen : Nat) :
    ∀ dmax d,
      (∀ p < dmax, (∀ q ≤ p, mem (d + q) ≠ 0) →
        strcasestrInner mem (d + p) s 0 slen (dmax - p) = false) →
      strcasestrOuter mem s slen d dmax = none := by
  intro dmax
  induction dmax with
  | zero => intro d _; rfl
  | succ dm ih =>
    intro d h
    by_cases h0 : mem d = 0
    · simp only [strcasestrOuter, if_pos h0]
    · have hf0 : strcasestrInner mem d s 0 slen (dm + 1) = false := by
        have h' := h 0 (by omega) ?_
        · simpa using h'
        · intro q hq
          have hq0 : q = 0 := by omega
          subst hq0
          simpa using h0
      simp only [strcasestrOuter, if_neg h0, if_neg (by simp [hf0] :
        ¬ strcasestrInner mem d s 0 slen (dm + 1) = true)]
      apply ih
      intro p hp hreach
      have h' := h (p + 1) (by omega) ?_
      · have e : d + (p + 1) = d + 1 + p := by omega
        have e2 : dm + 1 - (p + 1) = dm - p := by omega
        rwa [e, e2] at h'
      · intro q hq
        cases q with
        | zero => simpa using h0
        | succ q' =>
          have hr := hreach q' (by omega)
          have e : d + (q' + 1) = d + 1 + q' := by omega
          rwa [e]

/-- Claim C10: exhausting the haystack budget mid-comparison rejects the
candidate: when the bounded needle is strictly longer than `dmax`, both
searches return NotFound (here with no shorter match possible, the
needle having no interior terminator below `slen`); in particular
haystack ab with `dmax = 2` against needle abc with `slen = 3` yields
NotFound in both, while needle-budget exhaustion (C4) yields success. -/
theorem haystack_budget_exhaustion_is_mismatch (mem : Mem)
    (dest dmax src slen : Nat)
    (hdest : dest ≠ 0) (hdmax1 : 1 ≤ dmax) (hdmax2 : dmax ≤ RSIZE_MAX_STR)
    (hsrc : src ≠ 0) (hslen1 : 1 ≤ slen) (hslen2 : slen ≤ RSIZE_MAX_STR)
    (hsrc0 : mem src ≠ 0) (hds : dest ≠ src)
    (hlong : dmax < boundedLen mem src slen) :
    strstr_s mem dest dmax src slen false = ⟨ESNOTFND, none, []⟩ ∧
    strcasestr_s mem dest dmax src slen false = ⟨ESNOTFND, none, []⟩ := by
  constructor
  · have houter : strstrOuter mem src slen dest dmax = none := by
      apply strstrOuter_none
      intro p hp _
      rcases Bool.eq_false_or_eq_true
        (strstrInner mem (dest + p) src 0 slen (dmax - p)) with hb | hb
      swap
      · exact hb
      · exfalso
        rw [strstrInner_spec mem (dest + p) src slen (dmax - p) hslen1] at hb
        obtain ⟨-, hb2, -⟩ := hb
        omega
    unfold strstr_s
    rw [if_neg (by decide), if_neg hdest, if_neg (by omega), if_neg (by omega),
      if_neg hsrc, if_neg (by omega), if_neg (by omega),
      if_neg (by push_neg; exact ⟨hsrc0, hds⟩), houter]
  · have houter : strcasestrOuter mem src slen dest dmax = none := by
      apply strcasestrOuter_none
      intro p hp _
      rcases Bool.eq_false_or_eq_true
        (strcasestrInner mem (dest + p) src 0 slen (dmax - p)) with hb | hb
      swap
      · exact hb
      · exfalso
        have := strcasestrInner_le mem (dest + p) src (dmax - p) 0 slen hb
        simp only [Nat.add_zero] at this
        omega
    unfold strcasestr_s
    rw [if_neg (by decide), if_neg hdest, if_neg (by omega), if_neg (by omega),
      if_neg hsrc, if_neg (by omega), if_neg (by omega),
      if_neg (by push_neg; exact ⟨hsrc0, hds⟩), houter]

/-- Witness for C10: haystack ab (`dmax = 2`), needle abc
(`slen = 3`): both searches report NotFound with the output reset. -/
theorem haystack_budget_exhaustion_is_mismatch_witness :
    strstr_s (layout2 100 [97, 98] 200 [97, 98, 99]) 100 2 200 3 false
      = ⟨ESNOTFND, none, []⟩ ∧
    strcasestr_s (layout2 100 [97, 98] 200 [97, 98, 99]) 100 2 200 3 false
      = ⟨ESNOTFND, none, []⟩ :=
  haystack_budget_exhaustion_is_mismatch (layout2 100 [97, 98] 200 [97, 98, 99])
    100 2 200 3 (by decide) (by decide) (by decide) (by decide) (by decide)
    (by decide) (by decide) (by decide) (by decide)

lemma strstrInner_congr (mem mem' : Mem) (d s : Nat) :
    ∀ dlen i len, 1 ≤ len →
      (∀ k, i ≤ k → k < i + dlen → mem (d + k) = mem' (d + k)) →
      (∀ k, i ≤ k → k < i + len → mem (s + k) = mem' (s + k)) →
      strstrInner mem d s i len dlen = strstrInner mem' d s i len dlen := by
  intro dlen
  induction dlen with
  | zero => intro i len _ _ _; rfl
  | succ dl ih =>
    intro i len hlen hd hs
    have hsi : mem (s + i) = mem' (s + i) := hs i (Nat.le_refl i) (by omega)
    have hdi : mem (d + i) = mem' (d + i) := hd i (Nat.le_refl i) (by omega)
    simp only [strstrInner]
    rw [hsi, hdi]
    by_cases h1 : mem' (s + i) = 0
    · rw [if_pos h1, if_pos h1]
    · rw [if_neg h1, if_neg h1]
      by_cases h2 : mem' (d + i) ≠ mem' (s + i)
      · rw [if_pos h2, if_pos h2]
      · rw [if_neg h2, if_neg h2]
        by_cases hl1 : len - 1 = 0
        · rw [if_pos (Or.inr hl1), if_pos (Or.inr hl1)]
        · have hsi1 : mem (s + (i + 1)) = mem' (s + (i + 1)) :=
            hs (i + 1) (by omega) (by omega)
          rw [hsi1]
          by_cases h3 : mem' (s + (i + 1)) = 0 ∨ len - 1 = 0
          · rw [if_pos h3, if_pos h3]
          · rw [if_neg h3, if_neg h3]
            apply ih (i + 1) (len - 1) (by omega)
            · intro k hk1 hk2
              exact hd k (by omega) (by omega)
            · intro k hk1 hk2
              exact hs k (by omega) (by omega)

lemma strstrOuter_congr (mem mem' : Mem) (s slen : Nat) (hslen : 1 ≤ slen) :
    ∀ dmax d,
      (∀ k < dmax, mem (d + k) = mem' (d + k)) →
      (∀ k < slen, mem (s + k) = mem' (s + k)) →
      strstrOuter mem s slen d dmax = strstrOuter mem' s slen d dmax := by
  intro dmax
  induction dmax with
  | zero => intro d _ _; rfl
  | succ dm ih =>
    intro d hd hs
    have h0 : mem d = mem' d := by simpa using hd 0 (by omega)
    simp only [strstrOuter]
    rw [h0]
    by_cases h1 : mem' d = 0
    · rw [if_pos h1, if_pos h1]
    · rw [if_neg h1, if_neg h1]
      have hinner : strstrInner mem d s 0 slen (dm + 1)
          = strstrInner mem' d s 0 slen (dm + 1) := by
        apply strstrInner_congr mem mem' d s (dm + 1) 0 slen hslen
        · intro k _ hk2
          exact hd k (by omega)
        · intro k _ hk2
          exact hs k (by omega)
      rw [hinner]
      by_cases h2 : strstrInner mem' d s 0 slen (dm + 1) = true
      · rw [if_pos h2, if_pos h2]
      · rw [if_neg h2, if_neg h2]
        apply ih (d + 1)
        · intro k hk
          have h' := hd (k + 1) (by omega)
          have e : d + (k + 1) = d + 1 + k := by omega
          rwa [e] at h'
        · exact hs

lemma strcasestrInner_congr (mem mem' : Mem) (d s : Nat) :
    ∀ dlen i len, 1 ≤ len →
      (∀ k, i ≤ k → k < i + dlen → mem (d + k) = mem' (d + k)) →
      (∀ k, i ≤ k → k < i + len → mem (s + k) = mem' (s + k)) →
      strcasestrInner mem d s i len dlen = strcasestrInner mem' d s i len dlen := by
  intro dlen
  induction dlen with
  | zero => intro i len _ _ _; rfl
  | succ dl ih =>
    intro i len hlen hd hs
    have hsi : mem (s + i) = mem' (s + i) := hs i (Nat.le_refl i) (by omega)
    have hdi : mem (d + i) = mem' (d + i) := hd i (Nat.le_refl i) (by omega)
    simp only [strcasestrInner]
    rw [hsi, hdi]
    by_cases h1 : mem' (d + i) = 0
    · rw [if_pos h1, if_pos h1]
    · rw [if_neg h1, if_neg h1]
      by_cases h2 : toupper (mem' (d + i)) ≠ toupper (mem' (s + i))
      · rw [if_pos h2, if_pos h2]
      · rw [if_neg h2, if_neg h2]
        by_cases hl1 : len - 1 = 0
        · rw [if_pos (Or.inr hl1), if_pos (Or.inr hl1)]
        · have hsi1 : mem (s + (i + 1)) = mem' (s + (i + 1)) :=
            hs (i + 1) (by omega) (by omega)
          rw [hsi1]
          by_cases h3 : mem' (s + (i + 1)) = 0 ∨ len - 1 = 0
          · rw [if_pos h3, if_pos h3]
          · rw [if_neg h3, if_neg h3]
            apply ih (i + 1) (len - 1) (by omega)
            · intro k hk1 hk2
              exact hd k (by omega) (by omega)
            · intro k hk1 hk2
              exact hs k (by omega) (by omega)

lemma strcasestrOuter_congr (mem mem' : Mem) (s slen : Nat) (hslen : 1 ≤ slen) :
    ∀ dmax d,
      (∀ k < dmax, mem (d + k) = mem' (d + k)) →
      (∀ k < slen, mem (s + k) = mem' (s + k)) →
      strcasestrOuter mem s slen d dmax = strcasestrOuter mem' s slen d dmax := by
  intro dmax
  induction dmax with
  | zero => intro d _ _; rfl
  | succ dm ih =>
    intro d hd hs
    have h0 : mem d = mem' d := by simpa using hd 0 (by omega)
    simp only [strcasestrOuter]
    rw [h0]
    by_cases h1 : mem' d = 0
    · rw [if_pos h1, if_pos h1]
    · rw [if_neg h1, if_neg h1]
      have hinner : strcasestrInner mem d s 0 slen (dm + 1)
          = strcasestrInner mem' d s 0 slen (dm + 1) := by
        apply strcasestrInner_congr mem mem' d s (dm + 1) 0 slen hslen
        · intro k _ hk2
          exact hd k (by omega)
        · intro k _ hk2
          exact hs k (by omega)
      rw [hinner]
      by_cases h2 : strcasestrInner mem' d s 0 slen (dm + 1) = true
      · rw [if_pos h2, if_pos h2]
      · rw [if_neg h2, if_neg h2]
        apply ih (d + 1)
        · intro k hk
          have h' := hd (k + 1) (by omega)
          have e : d + (k + 1) = d + 1 + k := by omega
          rwa [e] at h'
        · exact hs

/-- Claim C4: needle characters at index `slen` and beyond never affect
the result of either search — two memories agreeing on the haystack
region below `dmax` and the needle prefix below `slen` give identical
results — and concretely the needle abcX with `slen = 3` matches the
haystack abcdef at position 0 with success. -/
theorem needle_chars_beyond_slen_irrelevant :
    (∀ (mem mem' : Mem) (dest dmax src slen : Nat) (b : Bool),
      (∀ k < dmax, mem (dest + k) = mem' (dest + k)) →
      (∀ k < slen, mem (src + k) = mem' (src + k)) →
      strstr_s mem dest dmax src slen b = strstr_s mem' dest dmax src slen b ∧
      strcasestr_s mem dest dmax src slen b
        = strcasestr_s mem' dest dmax src slen b) ∧
    strstr_s (layout2 100 [97, 98, 99, 100, 101, 102] 200 [97, 98, 99, 88])
      100 6 200 3 false = ⟨EOK, some 100, []⟩ ∧
    strcasestr_s (layout2 100 [97, 98, 99, 100, 101, 102] 200 [97, 98, 99, 88])
      100 6 200 3 false = ⟨EOK, some 100, []⟩ := by
  refine ⟨?_, by decide, by decide⟩
  intro mem mem' dest dmax src slen b hd hs
  constructor
  · unfold strstr_s
    refine if_congr Iff.rfl rfl ?_
    refine if_congr Iff.rfl rfl ?_
    refine if_congr Iff.rfl rfl ?_
    refine if_congr Iff.rfl rfl ?_
    refine if_congr Iff.rfl rfl ?_
    refine if_ctx_congr Iff.rfl (fun _ => rfl) (fun hslen0 => ?_)
    refine if_congr Iff.rfl rfl ?_
    have hs0 : mem src = mem' src := by
      have h' := hs 0 (by omega)
      simpa using h'
    refine if_congr (by rw [hs0]) rfl ?_
    rw [strstrOuter_congr mem mem' src slen (by omega) dmax dest hd hs]
  · unfold strcasestr_s
    refine if_congr Iff.rfl rfl ?_
    refine if_congr Iff.rfl rfl ?_
    refine if_congr Iff.rfl rfl ?_
    refine if_congr Iff.rfl rfl ?_
    refine if_congr Iff.rfl rfl ?_
    refine if_ctx_congr Iff.rfl (fun _ => rfl) (fun hslen0 => ?_)
    refine if_congr Iff.rfl rfl ?_
    have hs0 : mem src = mem' src := by
      have h' := hs 0 (by omega)
      simpa using h'
    refine if_congr (by rw [hs0]) rfl ?_
    rw [strcasestrOuter_congr mem mem' src slen (by omega) dmax dest hd hs]

/-- Witness for C4: changing the needle byte at index `slen = 3` (X to
Y) leaves the result of the search unchanged. -/
theorem needle_chars_beyond_slen_irrelevant_witness :
    strstr_s (layout2 100 [97, 98, 99, 100, 101, 102] 200 [97, 98, 99, 88])
        100 6 200 3 false
      = strstr_s (layout2 100 [97, 98, 99, 100, 101, 102] 200 [97, 98, 99, 89])
        100 6 200 3 false :=
  (needle_chars_beyond_slen_irrelevant.1
    (layout2 100 [97, 98, 99, 100, 101, 102] 200 [97, 98, 99, 88])
    (layout2 100 [97, 98, 99, 100, 101, 102] 200 [97, 98, 99, 89])
    100 6 200 3 false (by decide) (by decide)).1

lemma toupper_toupper (c : Nat) : toupper (toupper c) = toupper c := by
  simp only [toupper]
  split_ifs <;> omega

lemma toupper_eq_zero_iff (c : Nat) : toupper c = 0 ↔ c = 0 := by
  simp only [toupper]
  split_ifs <;> omega

lemma strcasestrInner_upper (mem : Mem) (d s : Nat) :
    ∀ dlen i len,
      strcasestrInner (fun a => toupper (mem a)) d s i len dlen
        = strcasestrInner mem d s i len dlen := by
  intro dlen
  induction dlen with
  | zero => intro i len; rfl
  | succ dl ih =>
    intro i len
    simp only [strcasestrInner]
    refine if_ctx_congr (toupper_eq_zero_iff (mem (d + i))) (fun _ => rfl)
      (fun h1 => ?_)
    refine if_congr ?_ rfl ?_
    · rw [toupper_toupper, toupper_toupper]
    · refine if_congr (or_congr (toupper_eq_zero_iff (mem (s + (i + 1)))) Iff.rfl)
        rfl ?_
      exact ih (i + 1) (len - 1)

lemma strcasestrOuter_upper (mem : Mem) (s slen : Nat) :
    ∀ dmax d,
      strcasestrOuter (fun a => toupper (mem a)) s slen d dmax
        = strcasestrOuter mem s slen d dmax := by
  intro dmax
  induction dmax with
  | zero => intro d; rfl
  | succ dm ih =>
    intro d
    simp only [strcasestrOuter]
    refine if_ctx_congr (toupper_eq_zero_iff (mem d)) (fun _ => rfl) (fun h1 => ?_)
    rw [strcasestrInner_upper mem d s (dm + 1) 0 slen]
    refine if_congr Iff.rfl rfl ?_
    exact ih (d + 1)

/-- Claim C5: `strcasestr_s` compares characters by uppercase
normalization — replacing every byte of memory by its uppercase
normalization leaves the result unchanged — and concretely the needle
WORLD is found in the haystack Hello World at offset 6 (the W of
World) with status `EOK`. -/
theorem strcasestr_s_case_insensitive :
    (∀ (mem : Mem) (dest dmax src slen : Nat) (b : Bool),
      strcasestr_s (fun a => toupper (mem a)) dest dmax src slen b
        = strcasestr_s mem dest dmax src slen b) ∧
    strcasestr_s
      (layout2 100 [72, 101, 108, 108, 111, 32, 87, 111, 114, 108, 100]
        200 [87, 79, 82, 76, 68]) 100 11 200 5 false
      = ⟨EOK, some (100 + 6), []⟩ := by
  refine ⟨?_, by decide⟩
  intro mem dest dmax src slen b
  unfold strcasestr_s
  refine if_congr Iff.rfl rfl ?_
  refine if_congr Iff.rfl rfl ?_
  refine if_congr Iff.rfl rfl ?_
  refine if_congr Iff.rfl rfl ?_
  refine if_congr Iff.rfl rfl ?_
  refine if_congr Iff.rfl rfl ?_
  refine if_congr Iff.rfl rfl ?_
  refine if_congr (or_congr (toupper_eq_zero_iff (mem src)) Iff.rfl) rfl ?_
  rw [strcasestrOuter_upper mem src slen dmax dest]
